import Mathlib

/-!
Shallow embedding of the adaptive weak-area tracking core of the
Sisters-AWS-Coach repository (src/database.py and the focus-tag selection in
src/question_generator.py), together with theorems settling the frozen claims
about it.

Modelling conventions:
* SQLite tables become Lean lists of rows; `answer_history` keeps the
  autoincrement id next to each event, `weakness_summary` is a list of
  `TagStat` rows (the code keys it by the (user_id, tag) primary key; the
  embedded upsert updates the first row with that key and otherwise appends).
* REAL columns become rationals; `accuracy_rate` stores the exact quotient the
  code computes, so no floating-point rounding is modelled (all quotients
  involved are of small integers).
* Timestamps (`created_at`, `last_updated`) are not modelled: no claim
  mentions them.  The MD5 `question_hash` is kept abstract: the model stores
  the question text itself in place of its hash (the hash is only a
  deduplication aid and no claim depends on it).
* `get_connection` commits a transaction on success and rolls it back when an
  exception escapes; `record_answer_run` embeds that semantics with an
  explicit failure point (index of the first failing SQL statement).
-/

namespace AWSCoach

/-- One row of the `answer_history` table (minus timestamps), i.e. one
immutable answer event. -/
structure AnswerEvent where
  user_id : String
  question_hash : Option String
  character : String
  tags : List String
  is_correct : Bool
  answer_time_sec : Option ℚ
  language : String
  mode : String
deriving Repr, DecidableEq

/-- One row of the `weakness_summary` table (the per-(user, tag) statistics
aggregate), minus the `last_updated` timestamp. -/
structure TagStat where
  user_id : String
  tag : String
  total_count : ℕ
  correct_count : ℕ
  accuracy_rate : ℚ
deriving Repr, DecidableEq

/-- The persistent database state: the three tables the statistics loop
touches, plus the autoincrement counter of `answer_history`. -/
structure DB where
  users : List String
  answer_history : List (ℕ × AnswerEvent)
  weakness_summary : List TagStat
  next_id : ℕ
deriving Repr, DecidableEq

/-- The empty database produced by `init_database` (SQLite autoincrement ids
start at 1). -/
def initDB : DB := ⟨[], [], [], 1⟩

/-- Embeds `get_or_create_user`: inserts the user row when absent. Only the
`users` table changes. -/
def get_or_create_user (db : DB) (user_id : String) : DB :=
  if user_id ∈ db.users then db else { db with users := db.users ++ [user_id] }

/-- Embeds the `INSERT ... ON CONFLICT(user_id, tag) DO UPDATE` statement of
`record_answer` for a single tag.  On conflict SQLite evaluates every SET
expression against the pre-update row, so the stored rate is
(old correct + delta) / (old total + 1). -/
def upsertTag (user_id tag : String) (is_correct : Bool) : List TagStat → List TagStat
  | [] => [⟨user_id, tag, 1, if is_correct then 1 else 0, if is_correct then 1 else 0⟩]
  | r :: rs =>
    if r.user_id = user_id ∧ r.tag = tag then
      { r with
        total_count := r.total_count + 1,
        correct_count := r.correct_count + (if is_correct then 1 else 0),
        accuracy_rate :=
          ((r.correct_count + (if is_correct then 1 else 0) : ℕ) : ℚ) /
            ((r.total_count + 1 : ℕ) : ℚ) } :: rs
    else r :: upsertTag user_id tag is_correct rs

/-- Embeds `record_answer` (the success path, every statement committing):
ensure the user exists, insert the history row, then run the per-tag upsert
for each element of `tags`, in list order.  Returns the new state and the
assigned answer id. -/
def record_answer (db : DB) (user_id character : String) (tags : List String)
    (is_correct : Bool) (question_text : String) (answer_time_sec : Option ℚ)
    (language mode : String) : DB × ℕ :=
  let question_hash : Option String :=
    if question_text = "" then none else some question_text
  let db0 := get_or_create_user db user_id
  let ev : AnswerEvent :=
    ⟨user_id, question_hash, character, tags, is_correct, answer_time_sec, language, mode⟩
  let answer_id := db0.next_id
  let db1 : DB :=
    { db0 with
      answer_history := db0.answer_history ++ [(answer_id, ev)],
      next_id := answer_id + 1 }
  let db2 : DB :=
    { db1 with
      weakness_summary :=
        tags.foldl (fun rows t => upsertTag user_id t is_correct rows) db1.weakness_summary }
  (db2, answer_id)

/-- Outcome of one `record_answer` call under the transaction semantics of
`get_connection`: the assigned id when the call returned normally (`none` when
an exception propagated to the caller), and the durable state afterwards. -/
structure RunResult where
  answer_id : Option ℕ
  db : DB
deriving Repr, DecidableEq

/-- Embeds `record_answer` run inside `get_connection`, with an explicit
failure point `failAt`: the index of the first SQL statement that raises
(`none` when every statement succeeds).  Statement 0 is the user upsert of
`get_or_create_user` (it runs on its own nested connection and commits
immediately); statement 1 is the `INSERT INTO answer_history`; statement 2 + i
is the weakness upsert for `tags[i]`.  A failing statement makes the context
manager roll the outer transaction back and re-raise, so the durable state
keeps only the separately committed user row. -/
def record_answer_run (failAt : Option ℕ) (db : DB) (user_id character : String)
    (tags : List String) (is_correct : Bool) (question_text : String)
    (answer_time_sec : Option ℚ) (language mode : String) : RunResult :=
  match failAt with
  | some 0 => ⟨none, db⟩
  | some (k + 1) =>
    if k < 1 + tags.length then
      ⟨none, get_or_create_user db user_id⟩
    else
      let p := record_answer db user_id character tags is_correct question_text
        answer_time_sec language mode
      ⟨some p.2, p.1⟩
  | none =>
    let p := record_answer db user_id character tags is_correct question_text
      answer_time_sec language mode
    ⟨some p.2, p.1⟩

/-- The SQL comparison `accuracy_rate ASC, total_count DESC` used by
`get_weaknesses`. -/
def weakRel (a b : TagStat) : Prop :=
  a.accuracy_rate < b.accuracy_rate ∨
    (a.accuracy_rate = b.accuracy_rate ∧ b.total_count ≤ a.total_count)

instance : DecidableRel weakRel := fun a b => by
  unfold weakRel; infer_instance

/-- The SQL comparison `accuracy_rate DESC, total_count DESC` used by
`get_strengths`. -/
def strongRel (a b : TagStat) : Prop :=
  b.accuracy_rate < a.accuracy_rate ∨
    (a.accuracy_rate = b.accuracy_rate ∧ b.total_count ≤ a.total_count)

instance : DecidableRel strongRel := fun a b => by
  unfold strongRel; infer_instance

/-- The SQL comparison `total_count ASC` used by the fallback query of
`get_suggested_tags`. -/
def practiceRel (a b : TagStat) : Prop := a.total_count ≤ b.total_count

instance : DecidableRel practiceRel := fun a b => by
  unfold practiceRel; infer_instance

/-- The WHERE clause of `get_weaknesses` (the min-sample floor 3 is hardcoded
in the SQL). -/
def weakPred (user_id : String) (threshold : ℚ) (r : TagStat) : Bool :=
  r.user_id == user_id && 3 ≤ r.total_count && decide (r.accuracy_rate < threshold)

/-- Embeds `get_weaknesses`: rows of the user with `total_count >= 3` and
`accuracy_rate < threshold`, ordered by `accuracy_rate ASC, total_count DESC`,
first `limit` rows.  The Python defaults are threshold 0.6 and limit 5. -/
def get_weaknesses (db : DB) (user_id : String) (threshold : ℚ) (limit : ℕ) :
    List TagStat :=
  (((db.weakness_summary.filter (weakPred user_id threshold)).insertionSort
      weakRel).take limit)

/-- The WHERE clause of `get_strengths`. -/
def strongPred (user_id : String) (threshold : ℚ) (r : TagStat) : Bool :=
  r.user_id == user_id && 3 ≤ r.total_count && decide (threshold ≤ r.accuracy_rate)

/-- Embeds `get_strengths`: rows of the user with `total_count >= 3` and
`accuracy_rate >= threshold`, ordered by `accuracy_rate DESC,
total_count DESC`, first `limit` rows.  The Python defaults are threshold 0.8
and limit 5. -/
def get_strengths (db : DB) (user_id : String) (threshold : ℚ) (limit : ℕ) :
    List TagStat :=
  (((db.weakness_summary.filter (strongPred user_id threshold)).insertionSort
      strongRel).take limit)

/-- Embeds `get_suggested_tags`: weak tags at threshold 0.7 first; otherwise
the tags of the user ordered by `total_count ASC`, first `count` rows.  (The
random-catalog fallback lives in the caller, `generate_question`.) -/
def get_suggested_tags (db : DB) (user_id : String) (count : ℕ) : List String :=
  let weaknesses := get_weaknesses db user_id (7 / 10) count
  if weaknesses.isEmpty then
    (((db.weakness_summary.filter (fun r => r.user_id == user_id)).insertionSort
        practiceRel).take count).map (fun r => r.tag)
  else
    weaknesses.map (fun r => r.tag)

/-- The fixed SAA exam category catalog (`SAA_CATEGORIES`). -/
def SAA_CATEGORIES : List String :=
  ["EC2", "Lambda", "ECS", "EKS", "Fargate", "Batch", "Lightsail",
   "S3", "EBS", "EFS", "FSx", "Storage Gateway", "Snow Family",
   "RDS", "DynamoDB", "Aurora", "ElastiCache", "Redshift", "DocumentDB", "Neptune",
   "VPC", "Route53", "CloudFront", "API Gateway", "ELB", "Direct Connect", "VPN",
   "Transit Gateway",
   "IAM", "KMS", "Secrets Manager", "WAF", "Shield", "Cognito", "GuardDuty",
   "Inspector", "Macie",
   "CloudWatch", "CloudTrail", "Config", "Organizations", "Systems Manager",
   "Trusted Advisor",
   "SQS", "SNS", "Step Functions", "EventBridge", "AppSync",
   "Cost Explorer", "Budgets", "Savings Plans", "Reserved Instances"]

/-- Embeds `get_all_categories`. -/
def get_all_categories : List String := SAA_CATEGORIES

/-- Python truthiness of an optional tag list: `not focus_tags` is true for
`None` and for the empty list. -/
def falsyTags : Option (List String) → Bool
  | none => true
  | some l => l.isEmpty

/-- Python truthiness of an optional user id: `None` and the empty string are
falsy. -/
def truthyUser : Option String → Bool
  | none => false
  | some s => !s.isEmpty

/-- Embeds the focus-tag selection of `QuestionGenerator.generate_question`
(lines 92 to 99): take the explicit `focus_tags` when truthy; otherwise, when
a user id is given, ask `get_suggested_tags` with count 2; when the result is
still falsy, sample `min 2 (length of the catalog)` random distinct
categories.  `sample` stands for `random.sample`; any function returning that
many distinct elements of its argument is a possible behaviour of it. -/
def choose_focus_tags (sample : List String → ℕ → List String) (db : DB)
    (user_id : Option String) (focus_tags : Option (List String)) : List String :=
  let ft1 : Option (List String) :=
    if falsyTags focus_tags && truthyUser user_id then
      some (get_suggested_tags db (user_id.getD "") 2)
    else focus_tags
  let ft2 : Option (List String) :=
    if falsyTags ft1 then
      some (sample get_all_categories (min 2 get_all_categories.length))
    else ft1
  ft2.getD []

/-- The arguments of one `record_answer` call, for replaying sequences of
calls. -/
structure Submit where
  user_id : String
  character : String
  tags : List String
  is_correct : Bool
  question_text : String
  answer_time_sec : Option ℚ
  language : String
  mode : String
deriving Repr, DecidableEq

/-- A minimal submission: user, tags and correctness, everything else as the
Python defaults. -/
def mkSubmit (user_id : String) (tags : List String) (is_correct : Bool) : Submit :=
  ⟨user_id, "Yuri", tags, is_correct, "", none, "ja", "online"⟩

/-- One replay step: apply a `record_answer` call to the state. -/
def step (db : DB) (s : Submit) : DB :=
  (record_answer db s.user_id s.character s.tags s.is_correct s.question_text
    s.answer_time_sec s.language s.mode).1

/-- Replay a sequence of `record_answer` calls from the freshly initialized
database. -/
def replay (events : List Submit) : DB :=
  events.foldl step initDB

/-- The statistics row stored for (user, tag), when present (`statOf` embeds
the `get(user_id, tag)` lookup on the primary key). -/
def statOf (rows : List TagStat) (user_id tag : String) : Option TagStat :=
  rows.find? (fun r => r.user_id == user_id && r.tag == tag)

/-- Stored total count for (user, tag), 0 when the row is absent. -/
def statTotal (rows : List TagStat) (user_id tag : String) : ℕ :=
  ((statOf rows user_id tag).map (fun r => r.total_count)).getD 0

/-- Stored correct count for (user, tag), 0 when the row is absent. -/
def statCorrect (rows : List TagStat) (user_id tag : String) : ℕ :=
  ((statOf rows user_id tag).map (fun r => r.correct_count)).getD 0

/-- Fold over the full answer history as the claim words it: the number of
events of the user whose tag list CONTAINS the tag. -/
def foldTotal (hist : List (ℕ × AnswerEvent)) (user_id tag : String) : ℕ :=
  (hist.filter (fun p => p.2.user_id == user_id && tag ∈ p.2.tags)).length

/-- Fold over the full answer history, correct events only, membership
counting as in `foldTotal`. -/
def foldCorrect (hist : List (ℕ × AnswerEvent)) (user_id tag : String) : ℕ :=
  (hist.filter (fun p => p.2.user_id == user_id && tag ∈ p.2.tags && p.2.is_correct)).length

/-- Fold over the full answer history counting OCCURRENCES: each event of the
user contributes the multiplicity of the tag in its tag list.  This is what
the per-element upsert loop of `record_answer` actually maintains. -/
def multiTotal (hist : List (ℕ × AnswerEvent)) (user_id tag : String) : ℕ :=
  (hist.map (fun p => if p.2.user_id = user_id then p.2.tags.count tag else 0)).sum

/-- Occurrence-counting fold restricted to correct events. -/
def multiCorrect (hist : List (ℕ × AnswerEvent)) (user_id tag : String) : ℕ :=
  (hist.map (fun p =>
    if p.2.user_id = user_id ∧ p.2.is_correct then p.2.tags.count tag else 0)).sum

/-- Proof-side characterization of one upsert on the looked-up row: create the
fresh row, or increment the existing one and restore its rate. -/
def bumpStat (user_id tag : String) (is_correct : Bool) : Option TagStat → TagStat
  | none => ⟨user_id, tag, 1, if is_correct then 1 else 0, if is_correct then 1 else 0⟩
  | some r =>
    { r with
      total_count := r.total_count + 1,
      correct_count := r.correct_count + (if is_correct then 1 else 0),
      accuracy_rate :=
        ((r.correct_count + (if is_correct then 1 else 0) : ℕ) : ℚ) /
          ((r.total_count + 1 : ℕ) : ℚ) }

/-- The row invariant claimed for every `weakness_summary` row: the correct
count never exceeds the total count, and the stored rate is exactly the
quotient of the counts. -/
def WFrow (r : TagStat) : Prop :=
  r.correct_count ≤ r.total_count ∧
    (0 < r.total_count → r.accuracy_rate = (r.correct_count : ℚ) / (r.total_count : ℚ))

/-- The answer event a submission stores (timestamps aside). -/
def evOf (s : Submit) : AnswerEvent :=
  ⟨s.user_id, if s.question_text = "" then none else some s.question_text, s.character,
    s.tags, s.is_correct, s.answer_time_sec, s.language, s.mode⟩

/-- Ledger/aggregate agreement (with occurrence counting) for every pair. -/
def Consistent (db : DB) : Prop :=
  ∀ u t : String,
    statTotal db.weakness_summary u t = multiTotal db.answer_history u t ∧
      statCorrect db.weakness_summary u t = multiCorrect db.answer_history u t

/-- Scenario fixture: user "u" answers tag "X" incorrectly once. -/
def wrongX : Submit := mkSubmit "u" ["X"] false

/-- Scenario fixture: user "u1" answers tag "S3" incorrectly once. -/
def wrongS3 : Submit := mkSubmit "u1" ["S3"] false

/-- Scenario fixture: user "u1" answers tag "EC2" correctly once. -/
def rightEC2 : Submit := mkSubmit "u1" ["EC2"] true

/-- Scenario state: "u1" answers "S3" incorrectly 3 times, then "EC2"
correctly 4 times. -/
def scenarioDB : DB :=
  replay [wrongS3, wrongS3, wrongS3, rightEC2, rightEC2, rightEC2, rightEC2]

/-- Fixture for the duplicated-tag behaviour: one submission whose tag list
holds the same tag twice. -/
def dupS3 : Submit := mkSubmit "u" ["S3", "S3"] true

end AWSCoach

namespace AWSCoach

instance : IsTrans TagStat weakRel :=
  ⟨fun a b c hab hbc => by
    unfold weakRel at hab hbc ⊢
    rcases hab with h1 | ⟨h1, h2⟩ <;> rcases hbc with h3 | ⟨h3, h4⟩
    · exact Or.inl (h1.trans h3)
    · exact Or.inl (h1.trans_eq h3)
    · exact Or.inl (h1.trans_lt h3)
    · exact Or.inr ⟨h1.trans h3, h4.trans h2⟩⟩

instance : IsTotal TagStat weakRel :=
  ⟨fun a b => by
    unfold weakRel
    rcases lt_trichotomy a.accuracy_rate b.accuracy_rate with h | h | h
    · exact Or.inl (Or.inl h)
    · rcases Nat.le_total b.total_count a.total_count with h2 | h2
      · exact Or.inl (Or.inr ⟨h, h2⟩)
      · exact Or.inr (Or.inr ⟨h.symm, h2⟩)
    · exact Or.inr (Or.inl h)⟩

instance : IsTrans TagStat strongRel :=
  ⟨fun a b c hab hbc => by
    unfold strongRel at hab hbc ⊢
    rcases hab with h1 | ⟨h1, h2⟩ <;> rcases hbc with h3 | ⟨h3, h4⟩
    · exact Or.inl (h3.trans h1)
    · exact Or.inl (h3.symm.trans_lt h1)
    · exact Or.inl (h3.trans_eq h1.symm)
    · exact Or.inr ⟨h1.trans h3, h4.trans h2⟩⟩

instance : IsTotal TagStat strongRel :=
  ⟨fun a b => by
    unfold strongRel
    rcases lt_trichotomy a.accuracy_rate b.accuracy_rate with h | h | h
    · exact Or.inr (Or.inl h)
    · rcases Nat.le_total b.total_count a.total_count with h2 | h2
      · exact Or.inl (Or.inr ⟨h, h2⟩)
      · exact Or.inr (Or.inr ⟨h.symm, h2⟩)
    · exact Or.inl (Or.inl h)⟩

instance : IsTrans TagStat practiceRel :=
  ⟨fun _ _ _ hab hbc => Nat.le_trans hab hbc⟩

instance : IsTotal TagStat practiceRel :=
  ⟨fun a b => Nat.le_total a.total_count b.total_count⟩

theorem get_or_create_user_answer_history (db : DB) (u : String) :
    (get_or_create_user db u).answer_history = db.answer_history := by
  unfold get_or_create_user; split <;> rfl

theorem get_or_create_user_weakness_summary (db : DB) (u : String) :
    (get_or_create_user db u).weakness_summary = db.weakness_summary := by
  unfold get_or_create_user; split <;> rfl

theorem get_or_create_user_next_id (db : DB) (u : String) :
    (get_or_create_user db u).next_id = db.next_id := by
  unfold get_or_create_user; split <;> rfl

theorem statOf_upsert_self (u t : String) (c : Bool) :
    ∀ rows : List TagStat,
      statOf (upsertTag u t c rows) u t = some (bumpStat u t c (statOf rows u t))
  | [] => by simp [statOf, upsertTag, bumpStat]
  | r :: rs => by
    by_cases h : r.user_id = u ∧ r.tag = t
    · simp [statOf, upsertTag, h, bumpStat, List.find?_cons, h.1, h.2]
    · have hb : (r.user_id == u && r.tag == t) = false := by
        simp only [Bool.and_eq_false_iff, beq_eq_false_iff_ne, ne_eq]
        tauto
      simp only [upsertTag, if_neg h, statOf, List.find?_cons, hb]
      exact statOf_upsert_self u t c rs

theorem statOf_upsert_other (u t u' t' : String) (c : Bool)
    (h : ¬(u' = u ∧ t' = t)) :
    ∀ rows : List TagStat,
      statOf (upsertTag u t c rows) u' t' = statOf rows u' t'
  | [] => by
    have hb : ((u : String) == u' && (t : String) == t') = false := by
      simp only [Bool.and_eq_false_iff, beq_eq_false_iff_ne, ne_eq]
      tauto
    simp [statOf, upsertTag, List.find?_cons, hb]
  | r :: rs => by
    by_cases hr : r.user_id = u ∧ r.tag = t
    · have hb : (r.user_id == u' && r.tag == t') = false := by
        simp only [Bool.and_eq_false_iff, beq_eq_false_iff_ne, ne_eq]
        rcases not_and_or.mp h with h1 | h1
        · exact Or.inl (fun he => h1 (he.symm.trans hr.1))
        · exact Or.inr (fun he => h1 (he.symm.trans hr.2))
      simp only [upsertTag, if_pos hr, statOf, List.find?_cons]
      simp only [statOf] at hb ⊢
      simp [hb]
    · simp only [upsertTag, if_neg hr, statOf, List.find?_cons]
      cases hb : (r.user_id == u' && r.tag == t') with
      | true => simp
      | false =>
        simp only []
        exact statOf_upsert_other u t u' t' c h rs

end AWSCoach

namespace AWSCoach

theorem statTotal_upsert (u t u' t' : String) (c : Bool) (rows : List TagStat) :
    statTotal (upsertTag u t c rows) u' t'
      = statTotal rows u' t' + (if u' = u ∧ t' = t then 1 else 0) := by
  by_cases h : u' = u ∧ t' = t
  · obtain ⟨hu, ht⟩ := h
    subst hu; subst ht
    rw [statTotal, statOf_upsert_self]
    cases hs : statOf rows u' t' <;> simp [bumpStat, statTotal, hs]
  · rw [statTotal, statOf_upsert_other u t u' t' c h, if_neg h]
    rfl

theorem statCorrect_upsert (u t u' t' : String) (c : Bool) (rows : List TagStat) :
    statCorrect (upsertTag u t c rows) u' t'
      = statCorrect rows u' t'
        + (if u' = u ∧ t' = t then (if c then 1 else 0) else 0) := by
  by_cases h : u' = u ∧ t' = t
  · obtain ⟨hu, ht⟩ := h
    subst hu; subst ht
    rw [statCorrect, statOf_upsert_self]
    cases hs : statOf rows u' t' <;> cases c <;> simp [bumpStat, statCorrect, hs]
  · rw [statCorrect, statOf_upsert_other u t u' t' c h, if_neg h]
    rfl

theorem statTotal_upsertList (u u' t' : String) (c : Bool) :
    ∀ (tags : List String) (rows : List TagStat),
      statTotal (tags.foldl (fun rs tg => upsertTag u tg c rs) rows) u' t'
        = statTotal rows u' t' + (if u' = u then tags.count t' else 0)
  | [], rows => by simp
  | tg :: tags, rows => by
    rw [List.foldl_cons, statTotal_upsertList u u' t' c tags, statTotal_upsert]
    by_cases hu : u' = u
    · subst hu
      by_cases ht : t' = tg
      · subst ht
        simp [List.count_cons]
        omega
      · have hne : tg ≠ t' := fun he => ht he.symm
        simp [List.count_cons, ht, hne]
    · simp [hu]

theorem statCorrect_upsertList (u u' t' : String) (c : Bool) :
    ∀ (tags : List String) (rows : List TagStat),
      statCorrect (tags.foldl (fun rs tg => upsertTag u tg c rs) rows) u' t'
        = statCorrect rows u' t'
          + (if u' = u then (if c then tags.count t' else 0) else 0)
  | [], rows => by simp
  | tg :: tags, rows => by
    rw [List.foldl_cons, statCorrect_upsertList u u' t' c tags, statCorrect_upsert]
    by_cases hu : u' = u
    · subst hu
      by_cases ht : t' = tg
      · subst ht
        cases c
        · simp [List.count_cons]
        · simp [List.count_cons]
          omega
      · have hne : tg ≠ t' := fun he => ht he.symm
        cases c <;> simp [List.count_cons, ht, hne]
    · simp [hu]

theorem statOf_upsertList_other (u u' t' : String) (c : Bool) :
    ∀ (tags : List String) (rows : List TagStat), (u' ≠ u ∨ t' ∉ tags) →
      statOf (tags.foldl (fun rs tg => upsertTag u tg c rs) rows) u' t'
        = statOf rows u' t'
  | [], _, _ => rfl
  | tg :: tags, rows, h => by
    have hhead : ¬(u' = u ∧ t' = tg) := by
      rcases h with h | h
      · exact fun hc => h hc.1
      · exact fun hc => h (hc.2 ▸ List.mem_cons_self tg tags)
    have htail : u' ≠ u ∨ t' ∉ tags := by
      rcases h with h | h
      · exact Or.inl h
      · exact Or.inr (fun hc => h (List.mem_cons_of_mem tg hc))
    rw [List.foldl_cons, statOf_upsertList_other u u' t' c tags _ htail,
      statOf_upsert_other u tg u' t' c hhead]

end AWSCoach

namespace AWSCoach

theorem WFrow_upsert (u t : String) (c : Bool) :
    ∀ rows : List TagStat, (∀ r ∈ rows, WFrow r) →
      ∀ r ∈ upsertTag u t c rows, WFrow r
  | [], _ => by
    intro r hr
    simp only [upsertTag, List.mem_singleton] at hr
    subst hr
    refine ⟨by cases c <;> simp, fun _ => ?_⟩
    cases c <;> norm_num
  | r0 :: rs, h => by
    intro r hr
    by_cases hm : r0.user_id = u ∧ r0.tag = t
    · rw [upsertTag, if_pos hm] at hr
      rcases List.mem_cons.mp hr with h1 | h1
      · subst h1
        have h0 := h r0 (List.mem_cons_self _ _)
        refine ⟨?_, fun _ => ?_⟩
        · have := h0.1
          cases c <;> simp <;> omega
        · push_cast
          norm_num
      · exact h r (List.mem_cons_of_mem _ h1)
    · rw [upsertTag, if_neg hm] at hr
      rcases List.mem_cons.mp hr with h1 | h1
      · subst h1
        exact h r (List.mem_cons_self _ _)
      · exact WFrow_upsert u t c rs (fun x hx => h x (List.mem_cons_of_mem _ hx)) r h1

theorem WFrow_upsertList (u : String) (c : Bool) :
    ∀ (tags : List String) (rows : List TagStat), (∀ r ∈ rows, WFrow r) →
      ∀ r ∈ tags.foldl (fun rs tg => upsertTag u tg c rs) rows, WFrow r
  | [], _, h => h
  | tg :: tags, rows, h => by
    rw [List.foldl_cons]
    exact WFrow_upsertList u c tags _ (WFrow_upsert u tg c rows h)

theorem step_answer_history (db : DB) (s : Submit) :
    (step db s).answer_history = db.answer_history ++ [(db.next_id, evOf s)] := by
  simp [step, record_answer, evOf, get_or_create_user_answer_history,
    get_or_create_user_next_id]

theorem step_weakness_summary (db : DB) (s : Submit) :
    (step db s).weakness_summary
      = s.tags.foldl (fun rows t => upsertTag s.user_id t s.is_correct rows)
          db.weakness_summary := by
  simp [step, record_answer, get_or_create_user_weakness_summary]

theorem WFrow_step (db : DB) (s : Submit) (h : ∀ r ∈ db.weakness_summary, WFrow r) :
    ∀ r ∈ (step db s).weakness_summary, WFrow r := by
  rw [step_weakness_summary]
  exact WFrow_upsertList s.user_id s.is_correct s.tags db.weakness_summary h

theorem WFrow_foldl_step :
    ∀ (evs : List Submit) (db : DB), (∀ r ∈ db.weakness_summary, WFrow r) →
      ∀ r ∈ (List.foldl step db evs).weakness_summary, WFrow r
  | [], _, h => h
  | e :: evs, db, h => by
    rw [List.foldl_cons]
    exact WFrow_foldl_step evs (step db e) (WFrow_step db e h)

theorem multiTotal_append (h : List (ℕ × AnswerEvent)) (p : ℕ × AnswerEvent)
    (u t : String) :
    multiTotal (h ++ [p]) u t
      = multiTotal h u t + (if p.2.user_id = u then p.2.tags.count t else 0) := by
  simp [multiTotal]

theorem multiCorrect_append (h : List (ℕ × AnswerEvent)) (p : ℕ × AnswerEvent)
    (u t : String) :
    multiCorrect (h ++ [p]) u t
      = multiCorrect h u t
        + (if p.2.user_id = u ∧ p.2.is_correct then p.2.tags.count t else 0) := by
  simp [multiCorrect]

theorem consistent_step (db : DB) (s : Submit) (h : Consistent db) :
    Consistent (step db s) := by
  intro u t
  have h1 := (h u t).1
  have h2 := (h u t).2
  constructor
  · rw [step_weakness_summary, statTotal_upsertList, step_answer_history,
      multiTotal_append, h1, evOf]
    by_cases hu : u = s.user_id
    · subst hu
      simp
    · have hne : s.user_id ≠ u := fun he => hu he.symm
      simp [hu, hne]
  · rw [step_weakness_summary, statCorrect_upsertList, step_answer_history,
      multiCorrect_append, h2, evOf]
    by_cases hu : u = s.user_id
    · subst hu
      cases hc : s.is_correct <;> simp [hc]
    · have hne : s.user_id ≠ u := fun he => hu he.symm
      simp [hu, hne]

theorem consistent_initDB : Consistent initDB := by
  intro u t
  exact ⟨rfl, rfl⟩

theorem consistent_foldl_step :
    ∀ (evs : List Submit) (db : DB), Consistent db →
      Consistent (List.foldl step db evs)
  | [], _, h => h
  | e :: evs, db, h => by
    rw [List.foldl_cons]
    exact consistent_foldl_step evs (step db e) (consistent_step db e h)

theorem consistent_replay (evs : List Submit) : Consistent (replay evs) :=
  consistent_foldl_step evs initDB consistent_initDB

end AWSCoach

namespace AWSCoach

theorem weakPred_iff (u : String) (θ : ℚ) (r : TagStat) :
    weakPred u θ r = true ↔ r.user_id = u ∧ 3 ≤ r.total_count ∧ r.accuracy_rate < θ := by
  simp [weakPred, Bool.and_eq_true, and_assoc]

theorem strongPred_iff (u : String) (θ : ℚ) (r : TagStat) :
    strongPred u θ r = true ↔ r.user_id = u ∧ 3 ≤ r.total_count ∧ θ ≤ r.accuracy_rate := by
  simp [strongPred, Bool.and_eq_true, and_assoc]

theorem mem_get_weaknesses {db : DB} {u : String} {θ : ℚ} {l : ℕ} {r : TagStat}
    (h : r ∈ get_weaknesses db u θ l) :
    r ∈ db.weakness_summary ∧ r.user_id = u ∧ 3 ≤ r.total_count ∧ r.accuracy_rate < θ := by
  unfold get_weaknesses at h
  have h1 := List.mem_of_mem_take h
  rw [List.mem_insertionSort, List.mem_filter] at h1
  exact ⟨h1.1, (weakPred_iff u θ r).mp h1.2⟩

theorem get_weaknesses_sorted (db : DB) (u : String) (θ : ℚ) (l : ℕ) :
    (get_weaknesses db u θ l).Sorted weakRel :=
  List.Pairwise.sublist (List.take_sublist _ _) (List.sorted_insertionSort weakRel _)

theorem get_weaknesses_length_le (db : DB) (u : String) (θ : ℚ) (l : ℕ) :
    (get_weaknesses db u θ l).length ≤ l := by
  unfold get_weaknesses
  rw [List.length_take]
  exact min_le_left _ _

theorem get_weaknesses_prefix (db : DB) (u : String) (θ : ℚ) (l : ℕ) :
    ∃ rest,
      (db.weakness_summary.filter (weakPred u θ)).insertionSort weakRel
        = get_weaknesses db u θ l ++ rest :=
  ⟨((db.weakness_summary.filter (weakPred u θ)).insertionSort weakRel).drop l,
    (List.take_append_drop l _).symm⟩

theorem get_weaknesses_complete {db : DB} {u : String} {θ : ℚ} {l : ℕ} {r : TagStat}
    (hr : r ∈ db.weakness_summary) (h1 : r.user_id = u) (h2 : 3 ≤ r.total_count)
    (h3 : r.accuracy_rate < θ)
    (hl : (db.weakness_summary.filter (weakPred u θ)).length ≤ l) :
    r ∈ get_weaknesses db u θ l := by
  unfold get_weaknesses
  rw [List.take_of_length_le]
  · rw [List.mem_insertionSort, List.mem_filter]
    exact ⟨hr, (weakPred_iff u θ r).mpr ⟨h1, h2, h3⟩⟩
  · rw [(List.perm_insertionSort _ _).length_eq]
    exact hl

theorem mem_get_strengths {db : DB} {u : String} {θ : ℚ} {l : ℕ} {r : TagStat}
    (h : r ∈ get_strengths db u θ l) :
    r ∈ db.weakness_summary ∧ r.user_id = u ∧ 3 ≤ r.total_count ∧ θ ≤ r.accuracy_rate := by
  unfold get_strengths at h
  have h1 := List.mem_of_mem_take h
  rw [List.mem_insertionSort, List.mem_filter] at h1
  exact ⟨h1.1, (strongPred_iff u θ r).mp h1.2⟩

theorem get_strengths_sorted (db : DB) (u : String) (θ : ℚ) (l : ℕ) :
    (get_strengths db u θ l).Sorted strongRel :=
  List.Pairwise.sublist (List.take_sublist _ _) (List.sorted_insertionSort strongRel _)

theorem get_strengths_length_le (db : DB) (u : String) (θ : ℚ) (l : ℕ) :
    (get_strengths db u θ l).length ≤ l := by
  unfold get_strengths
  rw [List.length_take]
  exact min_le_left _ _

theorem get_strengths_prefix (db : DB) (u : String) (θ : ℚ) (l : ℕ) :
    ∃ rest,
      (db.weakness_summary.filter (strongPred u θ)).insertionSort strongRel
        = get_strengths db u θ l ++ rest :=
  ⟨((db.weakness_summary.filter (strongPred u θ)).insertionSort strongRel).drop l,
    (List.take_append_drop l _).symm⟩

theorem get_strengths_complete {db : DB} {u : String} {θ : ℚ} {l : ℕ} {r : TagStat}
    (hr : r ∈ db.weakness_summary) (h1 : r.user_id = u) (h2 : 3 ≤ r.total_count)
    (h3 : θ ≤ r.accuracy_rate)
    (hl : (db.weakness_summary.filter (strongPred u θ)).length ≤ l) :
    r ∈ get_strengths db u θ l := by
  unfold get_strengths
  rw [List.take_of_length_le]
  · rw [List.mem_insertionSort, List.mem_filter]
    exact ⟨hr, (strongPred_iff u θ r).mpr ⟨h1, h2, h3⟩⟩
  · rw [(List.perm_insertionSort _ _).length_eq]
    exact hl

end AWSCoach

namespace AWSCoach

theorem get_suggested_tags_of_weak {db : DB} {u : String} {c : ℕ}
    (h : get_weaknesses db u (7 / 10) c ≠ []) :
    get_suggested_tags db u c = (get_weaknesses db u (7 / 10) c).map (fun r => r.tag) := by
  unfold get_suggested_tags
  rw [if_neg]
  intro hc
  exact h (List.isEmpty_iff.mp hc)

theorem get_suggested_tags_of_no_weak {db : DB} {u : String} {c : ℕ}
    (h : get_weaknesses db u (7 / 10) c = []) :
    get_suggested_tags db u c
      = (((db.weakness_summary.filter (fun r => r.user_id == u)).insertionSort
          practiceRel).take c).map (fun r => r.tag) := by
  unfold get_suggested_tags
  rw [if_pos]
  exact List.isEmpty_iff.mpr h

theorem get_weaknesses_of_no_rows {db : DB} {u : String} {θ : ℚ} {l : ℕ}
    (h : ∀ r ∈ db.weakness_summary, r.user_id ≠ u) :
    get_weaknesses db u θ l = [] := by
  unfold get_weaknesses
  have hf : db.weakness_summary.filter (weakPred u θ) = [] :=
    List.filter_eq_nil_iff.mpr (fun r hr => by
      intro hp
      exact h r hr ((weakPred_iff u θ r).mp hp).1)
  rw [hf]
  simp

theorem get_suggested_tags_of_no_rows {db : DB} {u : String} {c : ℕ}
    (h : ∀ r ∈ db.weakness_summary, r.user_id ≠ u) :
    get_suggested_tags db u c = [] := by
  rw [get_suggested_tags_of_no_weak (get_weaknesses_of_no_rows h)]
  have hf : db.weakness_summary.filter (fun r => r.user_id == u) = [] :=
    List.filter_eq_nil_iff.mpr (fun r hr => by simp [h r hr])
  rw [hf]
  simp

theorem get_suggested_tags_ne_nil {db : DB} {u : String} {c : ℕ} {r : TagStat}
    (hc : 0 < c) (hr : r ∈ db.weakness_summary) (hu : r.user_id = u) :
    get_suggested_tags db u c ≠ [] := by
  by_cases hw : get_weaknesses db u (7 / 10) c = []
  · rw [get_suggested_tags_of_no_weak hw]
    have hmem : r ∈ db.weakness_summary.filter (fun x => x.user_id == u) :=
      List.mem_filter.mpr ⟨hr, by simp [hu]⟩
    have hlen : 0 < (db.weakness_summary.filter (fun x => x.user_id == u)).length :=
      List.length_pos.mpr (List.ne_nil_of_mem hmem)
    rw [← List.length_pos, List.length_map, List.length_take,
      (List.perm_insertionSort practiceRel _).length_eq]
    omega
  · rw [get_suggested_tags_of_weak hw]
    simp [hw]

theorem choose_focus_tags_eq (sample : List String → ℕ → List String) (db : DB)
    (u : String) (hu : u ≠ "") :
    choose_focus_tags sample db (some u) none
      = if get_suggested_tags db u 2 = [] then
          sample get_all_categories (min 2 get_all_categories.length)
        else get_suggested_tags db u 2 := by
  have hb : u.isEmpty = false := by
    cases hb : u.isEmpty with
    | false => rfl
    | true => exact absurd (String.isEmpty_iff u |>.mp hb) hu
  unfold choose_focus_tags
  simp only [falsyTags, truthyUser, hb, List.isEmpty_nil, Bool.not_false, Bool.and_true,
    if_true, Bool.true_and]
  by_cases h : get_suggested_tags db u 2 = []
  · simp [h]
  · simp [h, List.isEmpty_iff]

end AWSCoach

namespace AWSCoach

theorem record_answer_weakness_summary (db : DB) (u c : String) (tags : List String)
    (b : Bool) (qt : String) (ats : Option ℚ) (lang mode : String) :
    (record_answer db u c tags b qt ats lang mode).1.weakness_summary
      = tags.foldl (fun rows t => upsertTag u t b rows) db.weakness_summary := by
  simp [record_answer, get_or_create_user_weakness_summary]

theorem record_answer_answer_history (db : DB) (u c : String) (tags : List String)
    (b : Bool) (qt : String) (ats : Option ℚ) (lang mode : String) :
    (record_answer db u c tags b qt ats lang mode).1.answer_history
      = db.answer_history
        ++ [(db.next_id,
              ⟨u, if qt = "" then none else some qt, c, tags, b, ats, lang, mode⟩)] := by
  simp [record_answer, get_or_create_user_answer_history, get_or_create_user_next_id]

theorem record_answer_run_none (db : DB) (u c : String) (tags : List String)
    (b : Bool) (qt : String) (ats : Option ℚ) (lang mode : String) :
    record_answer_run none db u c tags b qt ats lang mode
      = ⟨some (record_answer db u c tags b qt ats lang mode).2,
          (record_answer db u c tags b qt ats lang mode).1⟩ := rfl

theorem record_answer_run_zero (db : DB) (u c : String) (tags : List String)
    (b : Bool) (qt : String) (ats : Option ℚ) (lang mode : String) :
    record_answer_run (some 0) db u c tags b qt ats lang mode = ⟨none, db⟩ := rfl

theorem record_answer_run_succ_lt (db : DB) (u c : String) (tags : List String)
    (b : Bool) (qt : String) (ats : Option ℚ) (lang mode : String) (k : ℕ)
    (hk : k < 1 + tags.length) :
    record_answer_run (some (k + 1)) db u c tags b qt ats lang mode
      = ⟨none, get_or_create_user db u⟩ := by
  show (if k < 1 + tags.length then (⟨none, get_or_create_user db u⟩ : RunResult)
    else ⟨some (record_answer db u c tags b qt ats lang mode).2,
      (record_answer db u c tags b qt ats lang mode).1⟩) = _
  rw [if_pos hk]

theorem record_answer_run_succ_ge (db : DB) (u c : String) (tags : List String)
    (b : Bool) (qt : String) (ats : Option ℚ) (lang mode : String) (k : ℕ)
    (hk : ¬k < 1 + tags.length) :
    record_answer_run (some (k + 1)) db u c tags b qt ats lang mode
      = ⟨some (record_answer db u c tags b qt ats lang mode).2,
          (record_answer db u c tags b qt ats lang mode).1⟩ := by
  show (if k < 1 + tags.length then (⟨none, get_or_create_user db u⟩ : RunResult)
    else ⟨some (record_answer db u c tags b qt ats lang mode).2,
      (record_answer db u c tags b qt ats lang mode).1⟩) = _
  rw [if_neg hk]

end AWSCoach

namespace AWSCoach

section
attribute [local semireducible] Rat.mul Rat.inv Rat.add Rat.sub

/-- C1: after any sequence of `record_answer` calls (any user ids, tag lists
and correctness flags), every row of the tag-statistics table satisfies
`0 <= correct_count <= total_count`, and its stored `accuracy_rate` equals
`correct_count / total_count` whenever `total_count > 0`. -/
theorem C1_tagstat_invariant (events : List Submit) (r : TagStat)
    (hr : r ∈ (replay events).weakness_summary) :
    0 ≤ r.correct_count ∧ r.correct_count ≤ r.total_count ∧
      (0 < r.total_count →
        r.accuracy_rate = (r.correct_count : ℚ) / (r.total_count : ℚ)) := by
  have h := WFrow_foldl_step events initDB
    (fun x hx => absurd hx (List.not_mem_nil x)) r hr
  exact ⟨Nat.zero_le _, h.1, h.2⟩

/-- Witness for C1: one correct answer on tag "S3" yields the row
(total 1, correct 1, rate 1), which satisfies the invariant. -/
theorem C1_tagstat_invariant_witness :
    0 ≤ (⟨"u", "S3", 1, 1, 1⟩ : TagStat).correct_count ∧
      (⟨"u", "S3", 1, 1, 1⟩ : TagStat).correct_count
        ≤ (⟨"u", "S3", 1, 1, 1⟩ : TagStat).total_count ∧
      (0 < (⟨"u", "S3", 1, 1, 1⟩ : TagStat).total_count →
        (⟨"u", "S3", 1, 1, 1⟩ : TagStat).accuracy_rate
          = ((⟨"u", "S3", 1, 1, 1⟩ : TagStat).correct_count : ℚ)
              / ((⟨"u", "S3", 1, 1, 1⟩ : TagStat).total_count : ℚ)) :=
  C1_tagstat_invariant [mkSubmit "u" ["S3"] true] ⟨"u", "S3", 1, 1, 1⟩ (by decide)

/-- C2 counterexample: for the single event with tag list ["S3", "S3"], the
incrementally maintained total for ("u", "S3") is 2, while the number of
history events whose tag list contains "S3" is 1, so the claimed fold
(counting containing events) disagrees with incremental maintenance. -/
theorem C2_counterexample :
    statTotal (replay [dupS3]).weakness_summary "u" "S3"
      ≠ foldTotal (replay [dupS3]).answer_history "u" "S3" := by
  decide

/-- C2 amended: for any sequence of answer events, the incrementally
maintained (total, correct) counts equal the fold over the full history that
counts tag OCCURRENCES (each event contributes the multiplicity of the tag in
its tag list), rather than the fold that counts containing events. -/
theorem C2_incremental_matches_fold (events : List Submit) (u t : String) :
    statTotal (replay events).weakness_summary u t
        = multiTotal (replay events).answer_history u t ∧
      statCorrect (replay events).weakness_summary u t
        = multiCorrect (replay events).answer_history u t :=
  consistent_replay events u t

/-- C5 counterexample: a call with an empty tags list, and a call with an
empty user id, each insert an answer_history row (the stored history does
change), so neither is rejected before persistence. -/
theorem C5_counterexample :
    (record_answer initDB "u" "Yuri" [] false "" none "ja" "online").1.answer_history
        ≠ initDB.answer_history ∧
      (record_answer initDB "" "Yuri" ["S3"] true "" none "ja" "online").1.answer_history
        ≠ initDB.answer_history := by
  exact ⟨by decide, by decide⟩

/-- C5 amended: `record_answer` performs no validation at all: a call with an
empty tags list (or an empty user id) raises no error, inserts exactly one
answer_history row, and with an empty tags list changes no tag-statistics
row. -/
theorem C5_no_validation (db : DB) (u c : String) (tags : List String) (b : Bool)
    (qt : String) (ats : Option ℚ) (lang mode : String) :
    ((record_answer_run none db u c [] b qt ats lang mode).answer_id).isSome = true ∧
      (record_answer db u c [] b qt ats lang mode).1.weakness_summary
        = db.weakness_summary ∧
      (record_answer db u c [] b qt ats lang mode).1.answer_history
        = db.answer_history
          ++ [(db.next_id, ⟨u, if qt = "" then none else some qt, c, [], b, ats, lang, mode⟩)] ∧
      (record_answer db "" c tags b qt ats lang mode).1.answer_history
        = db.answer_history
          ++ [(db.next_id,
                ⟨"", if qt = "" then none else some qt, c, tags, b, ats, lang, mode⟩)] :=
  ⟨rfl,
    by rw [record_answer_weakness_summary]; rfl,
    record_answer_answer_history db u c [] b qt ats lang mode,
    record_answer_answer_history db "" c tags b qt ats lang mode⟩

/-- C6: whenever a `record_answer` run raises (whatever statement failed),
the durable state afterwards carries the original answer_history and the
original tag-statistics: the submission fully completes or fully fails. -/
theorem C6_atomic_rollback (failAt : Option ℕ) (db : DB) (u c : String)
    (tags : List String) (b : Bool) (qt : String) (ats : Option ℚ)
    (lang mode : String)
    (h : (record_answer_run failAt db u c tags b qt ats lang mode).answer_id = none) :
    (record_answer_run failAt db u c tags b qt ats lang mode).db.answer_history
        = db.answer_history ∧
      (record_answer_run failAt db u c tags b qt ats lang mode).db.weakness_summary
        = db.weakness_summary := by
  cases failAt with
  | none =>
    rw [record_answer_run_none] at h
    exact absurd h (by simp)
  | some k =>
    cases k with
    | zero => exact ⟨rfl, rfl⟩
    | succ k =>
      by_cases hk : k < 1 + tags.length
      · rw [record_answer_run_succ_lt db u c tags b qt ats lang mode k hk]
        exact ⟨get_or_create_user_answer_history db u,
          get_or_create_user_weakness_summary db u⟩
      · rw [record_answer_run_succ_ge db u c tags b qt ats lang mode k hk] at h
        exact absurd h (by simp)

/-- Witness for C6: failing the history insert (statement 1) leaves both
tables unchanged. -/
theorem C6_atomic_rollback_witness :
    (record_answer_run (some 1) initDB "u" "Yuri" ["S3"] true "" none "ja"
        "online").db.answer_history = initDB.answer_history ∧
      (record_answer_run (some 1) initDB "u" "Yuri" ["S3"] true "" none "ja"
        "online").db.weakness_summary = initDB.weakness_summary :=
  C6_atomic_rollback (some 1) initDB "u" "Yuri" ["S3"] true "" none "ja" "online"
    (by decide)

/-- C7 counterexample: failing the per-tag aggregate update (statement 2, the
upsert for the first tag, which runs after the ledger insert) on the empty
database leaves answer_history empty: the ledger append does NOT remain
persisted, contradicting the claim. -/
theorem C7_counterexample :
    (record_answer_run (some 2) initDB "u" "Yuri" ["S3"] false "" none "ja"
        "online").answer_id = none ∧
      (record_answer_run (some 2) initDB "u" "Yuri" ["S3"] false "" none "ja"
        "online").db.answer_history = [] := by
  exact ⟨by decide, by decide⟩

/-- C7 amended: because the ledger insert and every per-tag aggregate update
run inside the same transaction, a failure of the aggregate update for any
tag rolls the ledger append back as well: the stored answer_history and
tag-statistics are unchanged. -/
theorem C7_aggregate_failure_rolls_back_ledger (db : DB) (u c : String)
    (tags : List String) (b : Bool) (qt : String) (ats : Option ℚ)
    (lang mode : String) (i : ℕ) (hi : i < tags.length) :
    (record_answer_run (some (i + 2)) db u c tags b qt ats lang mode).answer_id
        = none ∧
      (record_answer_run (some (i + 2)) db u c tags b qt ats lang mode).db.answer_history
        = db.answer_history ∧
      (record_answer_run (some (i + 2)) db u c tags b qt ats lang mode).db.weakness_summary
        = db.weakness_summary := by
  rw [show i + 2 = (i + 1) + 1 by omega,
    record_answer_run_succ_lt db u c tags b qt ats lang mode (i + 1) (by omega)]
  exact ⟨rfl, get_or_create_user_answer_history db u,
    get_or_create_user_weakness_summary db u⟩

/-- Witness for C7 amended: the aggregate update for the only tag fails; the
run reports failure and the history stays empty. -/
theorem C7_aggregate_failure_witness :
    (record_answer_run (some (0 + 2)) initDB "u" "Yuri" ["S3"] false "" none "ja"
        "online").answer_id = none ∧
      (record_answer_run (some (0 + 2)) initDB "u" "Yuri" ["S3"] false "" none "ja"
        "online").db.answer_history = initDB.answer_history ∧
      (record_answer_run (some (0 + 2)) initDB "u" "Yuri" ["S3"] false "" none "ja"
        "online").db.weakness_summary = initDB.weakness_summary :=
  C7_aggregate_failure_rolls_back_ledger initDB "u" "Yuri" ["S3"] false "" none "ja"
    "online" 0 (by decide)

end

end AWSCoach

namespace AWSCoach

section
attribute [local semireducible] Rat.mul Rat.inv Rat.add Rat.sub

/-- C3: `get_weaknesses` returns exactly the rows of the user with
`total_count >= 3` and `accuracy_rate < threshold`: every returned row passes
the filter (soundness), the output is sorted ascending by accuracy with ties
broken by descending total count, it is the `limit`-prefix of the sorted
filtered rows (so at most `limit` long, and complete whenever the filtered
rows fit in `limit`); and in the boundary scenario the (total 2, correct 0)
row for tag "X" is excluded while, after a third incorrect answer, the
(total 3, correct 0) row is returned ranked first. -/
theorem C3_get_weaknesses_spec :
    (∀ (db : DB) (u : String) (θ : ℚ) (l : ℕ) (r : TagStat),
        r ∈ get_weaknesses db u θ l →
          r ∈ db.weakness_summary ∧ r.user_id = u ∧ 3 ≤ r.total_count ∧
            r.accuracy_rate < θ) ∧
      (∀ (db : DB) (u : String) (θ : ℚ) (l : ℕ),
        (get_weaknesses db u θ l).Sorted weakRel) ∧
      (∀ (db : DB) (u : String) (θ : ℚ) (l : ℕ), (get_weaknesses db u θ l).length ≤ l) ∧
      (∀ (db : DB) (u : String) (θ : ℚ) (l : ℕ), ∃ rest,
        (db.weakness_summary.filter (weakPred u θ)).insertionSort weakRel
          = get_weaknesses db u θ l ++ rest) ∧
      (∀ (db : DB) (u : String) (θ : ℚ) (l : ℕ) (r : TagStat),
        r ∈ db.weakness_summary → r.user_id = u → 3 ≤ r.total_count →
          r.accuracy_rate < θ →
          (db.weakness_summary.filter (weakPred u θ)).length ≤ l →
          r ∈ get_weaknesses db u θ l) ∧
      statOf (replay [wrongX, wrongX]).weakness_summary "u" "X"
        = some ⟨"u", "X", 2, 0, 0⟩ ∧
      (get_weaknesses (replay [wrongX, wrongX]) "u" (6 / 10) 5).map (fun r => r.tag)
        = [] ∧
      statOf (replay [wrongX, wrongX, wrongX]).weakness_summary "u" "X"
        = some ⟨"u", "X", 3, 0, 0⟩ ∧
      (get_weaknesses (replay [wrongX, wrongX, wrongX]) "u" (6 / 10) 5).map
          (fun r => r.tag)
        = ["X"] :=
  ⟨fun _ _ _ _ _ h => mem_get_weaknesses h,
    get_weaknesses_sorted,
    get_weaknesses_length_le,
    get_weaknesses_prefix,
    fun _ _ _ _ _ h1 h2 h3 h4 h5 => get_weaknesses_complete h1 h2 h3 h4 h5,
    by decide, by decide, by decide, by decide⟩

/-- Witness for C3: the completeness direction applied at the concrete
three-incorrect-answers state puts the (3, 0) row for tag "X" in the
result. -/
theorem C3_get_weaknesses_spec_witness :
    (⟨"u", "X", 3, 0, 0⟩ : TagStat)
      ∈ get_weaknesses (replay [wrongX, wrongX, wrongX]) "u" (6 / 10) 5 :=
  C3_get_weaknesses_spec.2.2.2.2.1 (replay [wrongX, wrongX, wrongX]) "u" (6 / 10) 5
    ⟨"u", "X", 3, 0, 0⟩ (by decide) rfl (by decide) (by decide) (by decide)

/-- C8: `get_strengths` returns exactly the rows of the user with
`total_count >= 3` and `accuracy_rate >= threshold`, sorted descending by
accuracy with ties broken by descending total count, truncated to `limit`
(soundness, sortedness, prefix and completeness as for C3); and in the
scenario where "u1" answers "S3" incorrectly 3 times then "EC2" correctly 4
times, weaknesses returns [S3], strengths returns [EC2], and the suggestion
with count 1 returns ["S3"]. -/
theorem C8_get_strengths_spec :
    (∀ (db : DB) (u : String) (θ : ℚ) (l : ℕ) (r : TagStat),
        r ∈ get_strengths db u θ l →
          r ∈ db.weakness_summary ∧ r.user_id = u ∧ 3 ≤ r.total_count ∧
            θ ≤ r.accuracy_rate) ∧
      (∀ (db : DB) (u : String) (θ : ℚ) (l : ℕ),
        (get_strengths db u θ l).Sorted strongRel) ∧
      (∀ (db : DB) (u : String) (θ : ℚ) (l : ℕ), (get_strengths db u θ l).length ≤ l) ∧
      (∀ (db : DB) (u : String) (θ : ℚ) (l : ℕ), ∃ rest,
        (db.weakness_summary.filter (strongPred u θ)).insertionSort strongRel
          = get_strengths db u θ l ++ rest) ∧
      (∀ (db : DB) (u : String) (θ : ℚ) (l : ℕ) (r : TagStat),
        r ∈ db.weakness_summary → r.user_id = u → 3 ≤ r.total_count →
          θ ≤ r.accuracy_rate →
          (db.weakness_summary.filter (strongPred u θ)).length ≤ l →
          r ∈ get_strengths db u θ l) ∧
      (get_weaknesses scenarioDB "u1" (6 / 10) 5).map (fun r => r.tag) = ["S3"] ∧
      (get_strengths scenarioDB "u1" (8 / 10) 5).map (fun r => r.tag) = ["EC2"] ∧
      get_suggested_tags scenarioDB "u1" 1 = ["S3"] :=
  ⟨fun _ _ _ _ _ h => mem_get_strengths h,
    get_strengths_sorted,
    get_strengths_length_le,
    get_strengths_prefix,
    fun _ _ _ _ _ h1 h2 h3 h4 h5 => get_strengths_complete h1 h2 h3 h4 h5,
    by decide, by decide, by decide⟩

/-- Witness for C8: the completeness direction applied at the scenario state
puts the (4, 4, rate 1) row for tag "EC2" in the strengths result. -/
theorem C8_get_strengths_spec_witness :
    (⟨"u1", "EC2", 4, 4, 1⟩ : TagStat) ∈ get_strengths scenarioDB "u1" (8 / 10) 5 :=
  C8_get_strengths_spec.2.2.2.2.1 scenarioDB "u1" (8 / 10) 5 ⟨"u1", "EC2", 4, 4, 1⟩
    (by decide) rfl (by decide) (by decide) (by decide)

/-- C4: the focus-tag selection follows the three-tier priority: weak tags at
threshold 0.7 first; else the tags of the user ordered by total_count
ascending; else, for a user with zero statistics rows, `min 2 |catalog|` = 2
tags sampled from the fixed catalog, so a fresh user receives exactly 2
catalog tags; and the selection is never empty (the catalog is a fixed
non-empty constant).  `sample` ranges over the possible behaviours of
`random.sample`: it returns `min k n` elements of its input. -/
theorem C4_suggestion_policy (sample : List String → ℕ → List String)
    (hlen : ∀ (l : List String) (k : ℕ), (sample l k).length = min k l.length)
    (hmem : ∀ (l : List String) (k : ℕ) (x : String), x ∈ sample l k → x ∈ l)
    (db : DB) (u : String) (hu : u ≠ "") :
    (get_weaknesses db u (7 / 10) 2 ≠ [] →
        choose_focus_tags sample db (some u) none
          = (get_weaknesses db u (7 / 10) 2).map (fun r => r.tag)) ∧
      (get_weaknesses db u (7 / 10) 2 = [] →
        get_suggested_tags db u 2
          = (((db.weakness_summary.filter (fun r => r.user_id == u)).insertionSort
              practiceRel).take 2).map (fun r => r.tag)) ∧
      ((∀ r ∈ db.weakness_summary, r.user_id ≠ u) →
        choose_focus_tags sample db (some u) none = sample get_all_categories 2 ∧
          (choose_focus_tags sample db (some u) none).length = 2 ∧
          ∀ x ∈ choose_focus_tags sample db (some u) none, x ∈ get_all_categories) ∧
      choose_focus_tags sample db (some u) none ≠ [] := by
  have hmin : min 2 get_all_categories.length = 2 := by decide
  refine ⟨?_, ?_, ?_, ?_⟩
  · intro h
    have hs := get_suggested_tags_of_weak h
    have hne : get_suggested_tags db u 2 ≠ [] := by
      rw [hs]
      simp [h]
    rw [choose_focus_tags_eq sample db u hu, if_neg hne, hs]
  · exact fun h => get_suggested_tags_of_no_weak h
  · intro h
    have hs0 : get_suggested_tags db u 2 = [] := get_suggested_tags_of_no_rows h
    have he : choose_focus_tags sample db (some u) none
        = sample get_all_categories 2 := by
      rw [choose_focus_tags_eq sample db u hu, if_pos hs0, hmin]
    refine ⟨he, ?_, ?_⟩
    · rw [he, hlen]
      decide
    · intro x hx
      rw [he] at hx
      exact hmem _ _ _ hx
  · by_cases hs0 : get_suggested_tags db u 2 = []
    · rw [choose_focus_tags_eq sample db u hu, if_pos hs0]
      have h2 : (sample get_all_categories (min 2 get_all_categories.length)).length
          = 2 := by
        rw [hlen]
        decide
      intro hnil
      rw [hnil] at h2
      simp at h2
    · rw [choose_focus_tags_eq sample db u hu, if_neg hs0]
      exact hs0

/-- Witness for C4: with the take-a-prefix realization of `random.sample`, a
fresh user with zero events receives a non-empty suggestion. -/
theorem C4_suggestion_policy_witness :
    choose_focus_tags (fun l k => l.take k) initDB (some "u1") none ≠ [] :=
  (C4_suggestion_policy (fun l k => l.take k) (fun l k => List.length_take k l)
    (fun _ _ _ hx => List.mem_of_mem_take hx) initDB "u1" (by decide)).2.2.2

/-- C9: one `record_answer` call with tags ["EC2", "Lambda"] and a correct
answer increments total and correct counts of exactly the (user, "EC2") and
(user, "Lambda") rows by one each, and the stored row of every other
(user, tag) pair is unchanged. -/
theorem C9_fanout (db : DB) (u c : String) (qt : String) (ats : Option ℚ)
    (lang mode : String) :
    statTotal (record_answer db u c ["EC2", "Lambda"] true qt ats lang
          mode).1.weakness_summary u "EC2"
        = statTotal db.weakness_summary u "EC2" + 1 ∧
      statCorrect (record_answer db u c ["EC2", "Lambda"] true qt ats lang
          mode).1.weakness_summary u "EC2"
        = statCorrect db.weakness_summary u "EC2" + 1 ∧
      statTotal (record_answer db u c ["EC2", "Lambda"] true qt ats lang
          mode).1.weakness_summary u "Lambda"
        = statTotal db.weakness_summary u "Lambda" + 1 ∧
      statCorrect (record_answer db u c ["EC2", "Lambda"] true qt ats lang
          mode).1.weakness_summary u "Lambda"
        = statCorrect db.weakness_summary u "Lambda" + 1 ∧
      ∀ u' t' : String, ¬(u' = u ∧ (t' = "EC2" ∨ t' = "Lambda")) →
        statOf (record_answer db u c ["EC2", "Lambda"] true qt ats lang
            mode).1.weakness_summary u' t'
          = statOf db.weakness_summary u' t' := by
  refine ⟨?_, ?_, ?_, ?_, ?_⟩
  · rw [record_answer_weakness_summary, statTotal_upsertList, if_pos rfl,
      show (["EC2", "Lambda"] : List String).count "EC2" = 1 from by decide]
  · rw [record_answer_weakness_summary, statCorrect_upsertList, if_pos rfl]
    simp [show (["EC2", "Lambda"] : List String).count "EC2" = 1 from by decide]
  · rw [record_answer_weakness_summary, statTotal_upsertList, if_pos rfl,
      show (["EC2", "Lambda"] : List String).count "Lambda" = 1 from by decide]
  · rw [record_answer_weakness_summary, statCorrect_upsertList, if_pos rfl]
    simp [show (["EC2", "Lambda"] : List String).count "Lambda" = 1 from by decide]
  · intro u' t' h
    rw [record_answer_weakness_summary]
    apply statOf_upsertList_other
    rcases not_and_or.mp h with h1 | h1
    · exact Or.inl h1
    · refine Or.inr (fun hm => h1 ?_)
      simpa using hm

/-- Witness for C9 at the empty database. -/
theorem C9_fanout_witness :
    statTotal (record_answer initDB "u" "Yuri" ["EC2", "Lambda"] true "" none "ja"
          "online").1.weakness_summary "u" "EC2"
      = statTotal initDB.weakness_summary "u" "EC2" + 1 :=
  (C9_fanout initDB "u" "Yuri" "" none "ja" "online").1

/-- C10: `record_answer` applies one statistics update per ELEMENT of the tag
list: a call with tags ["S3", "S3"] bumps the single (user, "S3") row total
by 2 (and correct by 2 when the answer is correct), while still inserting
exactly one answer_history row. -/
theorem C10_duplicate_tag_fanout (db : DB) (u c : String) (b : Bool) (qt : String)
    (ats : Option ℚ) (lang mode : String) :
    statTotal (record_answer db u c ["S3", "S3"] b qt ats lang
          mode).1.weakness_summary u "S3"
        = statTotal db.weakness_summary u "S3" + 2 ∧
      statCorrect (record_answer db u c ["S3", "S3"] b qt ats lang
          mode).1.weakness_summary u "S3"
        = statCorrect db.weakness_summary u "S3" + (if b then 2 else 0) ∧
      (record_answer db u c ["S3", "S3"] b qt ats lang mode).1.answer_history.length
        = db.answer_history.length + 1 := by
  refine ⟨?_, ?_, ?_⟩
  · rw [record_answer_weakness_summary, statTotal_upsertList, if_pos rfl,
      show (["S3", "S3"] : List String).count "S3" = 2 from by decide]
  · rw [record_answer_weakness_summary, statCorrect_upsertList, if_pos rfl]
    cases b <;> simp [show (["S3", "S3"] : List String).count "S3" = 2 from by decide]
  · rw [record_answer_answer_history]
    simp

end

end AWSCoach
